import Mathlib

/-!
Verification development for the MD2vec masked-document-modeling pipeline
(src/MD2vec/run_lm_finetuning.py).  The Python source is shallowly embedded:
pure functions become Lean functions, fallible operations return Option or
Except, and the process-global random draws (random.randint / random.random)
are threaded as explicit parameters.  External libraries that the source
calls (gensim's simple_preprocess, scikit-learn's CountVectorizer) are
modelled from their documented behaviour, as noted on each definition.
-/

namespace MD2vec

/-- Maximal runs of characters satisfying p; the accumulator holds the
current run reversed.  Used to model regex-style token extraction. -/
def charRunsAux (p : Char → Bool) (cur : List Char) : List Char → List (List Char)
  | [] => if cur.isEmpty then [] else [cur.reverse]
  | c :: cs =>
    if p c then charRunsAux p (c :: cur) cs
    else if cur.isEmpty then charRunsAux p [] cs
    else cur.reverse :: charRunsAux p [] cs

/-- Models gensim.utils.simple_preprocess, used as Tokenizer.tokenize in the
source: lowercase the text and return the alphabetic tokens of length 2..15.
(gensim's PAT_ALPHABETIC also admits digits and underscores after the first
character; the corpora of the claims are purely alphabetic, where the two
agree.) -/
def gensimSimplePreprocess (doc : String) : List String :=
  ((charRunsAux (fun c => c.isAlpha) [] (doc.toList.map Char.toLower)).filter
    (fun w => 2 ≤ w.length ∧ w.length ≤ 15)).map (fun cs => String.mk cs)

/-- Document frequency of a term: the number of documents whose token list
contains it (CountVectorizer counts min_df / max_df in documents). -/
def docFreq (docs : List String) (t : String) : Nat :=
  (docs.filter (fun d => t ∈ gensimSimplePreprocess d)).length

/-- Corpus-wide term frequency, used by CountVectorizer's max_features cut. -/
def termFreq (docs : List String) (t : String) : Nat :=
  ((docs.map gensimSimplePreprocess).flatten).count t

/-- Lexicographic order on character lists (code-point order, as Python
compares strings). -/
def charListLe : List Char → List Char → Bool
  | [], _ => true
  | _ :: _, [] => false
  | a :: as, b :: bs => if a = b then charListLe as bs else decide (a < b)

/-- String order used to model CountVectorizer's alphabetical id assignment. -/
def strLe (a b : String) : Bool :=
  charListLe a.toList b.toList

/-- Insert into a sorted list (kept stable for equal keys). -/
def insortBy {α : Type} (le : α → α → Bool) (x : α) : List α → List α
  | [] => [x]
  | y :: ys => if le x y then x :: y :: ys else y :: insortBy le x ys

/-- Stable insertion sort. -/
def isortBy {α : Type} (le : α → α → Bool) (l : List α) : List α :=
  l.foldr (insortBy le) []

/-- Models scikit-learn's CountVectorizer(max_df, min_df, max_features,
tokenizer=...).fit_transform followed by reading .vocabulary_: the result is
the list of kept terms, the term at position i holding id i.  fit_transform
rejects a non-positive max_features with a ValueError; terms are the distinct
tokens of the corpus, pruned to min_df <= document-frequency <= max_df (both
absolute counts here), cut to the max_features terms of highest corpus-wide
frequency (ties kept in alphabetical order), and assigned ids in alphabetical
order; an empty result is a ValueError as well. -/
def countVectorizerFit (maxFeatures : Int) (minDf maxDf : Nat) (docs : List String) :
    Except String (List String) :=
  if maxFeatures ≤ 0 then
    Except.error "ValueError: max_features, neither a positive integer nor None"
  else
    let terms := isortBy strLe ((docs.map gensimSimplePreprocess).flatten.dedup)
    let kept := terms.filter (fun t => minDf ≤ docFreq docs t ∧ docFreq docs t ≤ maxDf)
    let kept :=
      if kept.length ≤ maxFeatures.toNat then kept
      else isortBy strLe
        ((isortBy (fun a b => termFreq docs b ≤ termFreq docs a) kept).take maxFeatures.toNat)
    if kept.isEmpty then Except.error "ValueError: empty vocabulary"
    else Except.ok kept

/-- Python dict assignment d[k] = v on a dict modelled as an association
list: overwrite the value when the key is present, append otherwise. -/
def pyDictSet (d : List (String × Nat)) (k : String) (v : Nat) : List (String × Nat) :=
  if d.any (fun p => p.1 = k) then d.map (fun p => if p.1 = k then (k, v) else p)
  else d ++ [(k, v)]

/-- Tokenizer.__init__ after the CountVectorizer fit: self.vocab is
counter.vocabulary_ (term t at id = its position), then
self.vocab['[UNK]'] = len(self.vocab) and self.vocab['[MASK]'] =
len(self.vocab). -/
def mkVocab (ts : List String) : List (String × Nat) :=
  let v0 := ts.enum.map (fun p => (p.2, p.1))
  let v1 := pyDictSet v0 "[UNK]" v0.length
  pyDictSet v1 "[MASK]" v1.length

/-- The Tokenizer class: its state after __init__ is the vocab dict
(token to id). -/
structure Tokenizer where
  vocab : List (String × Nat)
deriving DecidableEq

/-- Tokenizer.__init__(docs, vocab_size): CountVectorizer(max_df=1000,
min_df=2, max_features=vocab_size - 2, tokenizer=self.tokenize) is fitted on
the documents, then the two sentinel tokens are appended to the vocabulary. -/
def tokenizerInit (vocabSize : Int) (docs : List String) : Except String Tokenizer :=
  (countVectorizerFit (vocabSize - 2) 2 1000 docs).map (fun ts => ⟨mkVocab ts⟩)

/-- Tokenizer.tokenize delegates to gensim.utils.simple_preprocess. -/
def Tokenizer.tokenize (_ : Tokenizer) (doc : String) : List String :=
  gensimSimplePreprocess doc

/-- Lookup of one token in self.vocab with the [UNK] fallback of
convert_tokens_to_ids; none models the KeyError raised when the token and
'[UNK]' are both absent. -/
def Tokenizer.resolveId (tok : Tokenizer) (t : String) : Option Nat :=
  match tok.vocab.lookup t with
  | some i => some i
  | none => tok.vocab.lookup "[UNK]"

/-- Tokenizer.convert_tokens_to_ids: each token's id, substituting
self.vocab['[UNK]'] for a token absent from the vocabulary. -/
def Tokenizer.convert_tokens_to_ids (tok : Tokenizer) : List String → Option (List Nat)
  | [] => some []
  | t :: ts =>
    match tok.resolveId t with
    | none => none
    | some i => (tok.convert_tokens_to_ids ts).map (fun is => i :: is)

/-- Tokenizer.convert_ids_to_tokens: strict inverse lookup through
self.ids_to_tokens (the vocab with pairs swapped); none models the KeyError
for an id outside the vocabulary. -/
def Tokenizer.convert_ids_to_tokens (tok : Tokenizer) : List Nat → Option (List String)
  | [] => some []
  | i :: is =>
    match (tok.vocab.map (fun p => (p.2, p.1))).lookup i with
    | none => none
    | some t => (tok.convert_ids_to_tokens is).map (fun ts => t :: ts)

/-- The process-global mask_prob read by random_word: -1 selects the
single-token mode, any other value is the per-token masking probability. -/
inductive MaskCfg where
  | single
  | prob (p : ℚ)
deriving DecidableEq

/-- The else-branch loop of random_word: for each position, a fresh
random.random() draw (draws i for position i, counted from offset o); a draw
below p replaces the token with '[MASK]' and records the original token's id
(falling back to the '[UNK]' id when the token is absent; none models the
KeyError when '[UNK]' is absent too), otherwise the label is -1. -/
def probMask (p : ℚ) (draws : Nat → ℚ) (tok : Tokenizer) (o : Nat) :
    List String → Option (List String × List Int)
  | [] => some ([], [])
  | t :: ts =>
    if draws o < p then
      match tok.resolveId t with
      | none => none
      | some i =>
        (probMask p draws tok (o + 1) ts).map
          (fun r => ("[MASK]" :: r.1, (i : Int) :: r.2))
    else
      (probMask p draws tok (o + 1) ts).map
        (fun r => (t :: r.1, (-1 : Int) :: r.2))

/-- random_word(tokens, tokenizer).  Single-token mode first mutates
tokens[mask_index] to '[MASK]' (mask_index = random.randint(0, len-1),
passed here as randIdx) and only then builds the labels from the mutated
list, so the label written at the masked index is the id of '[MASK]' itself;
the list comprehension raises a KeyError only when '[MASK]' is absent from
the vocab (none here).  On an empty token list random.randint(0, -1) raises
a ValueError (none here); randIdx outside the range cannot be produced by
randint and is also mapped to none. -/
def random_word (cfg : MaskCfg) (randIdx : Nat) (draws : Nat → ℚ)
    (tokens : List String) (tok : Tokenizer) : Option (List String × List Int) :=
  match cfg with
  | MaskCfg.single =>
    if tokens.length = 0 then none
    else if randIdx < tokens.length then
      let masked := tokens.set randIdx "[MASK]"
      match tok.vocab.lookup "[MASK]" with
      | none => none
      | some m =>
        some (masked,
          (List.range tokens.length).map (fun i => if i = randIdx then (m : Int) else (-1 : Int)))
    else none
  | MaskCfg.prob p => probMask p draws tok 0 tokens

/-- Whether the masking randomness masks position i under the given
configuration. -/
def maskedAtB (cfg : MaskCfg) (randIdx : Nat) (draws : Nat → ℚ) (i : Nat) : Bool :=
  match cfg with
  | MaskCfg.single => i = randIdx
  | MaskCfg.prob p => draws i < p

/-- InputExample: guid is used only for one-time debug logging. -/
structure InputExample where
  guid : Nat
  doc_tok : List String
  doc_id : Nat
deriving DecidableEq

/-- InputFeatures: the four parallel sequences of one training sample. -/
structure InputFeatures where
  input_ids : List Nat
  input_mask : List Nat
  doc_id : List Nat
  lm_label_ids : List Int
deriving DecidableEq

/-- convert_example_to_features(example, max_seq_length, tokenizer): mask via
random_word, convert to ids, build the all-ones input_mask and the replicated
doc_id, truncate all four sequences to max_seq_length (List.take is the
identity when they are shorter, matching the guarded slicing), then zero-pad
on the right until input_ids reaches max_seq_length (input_ids, input_mask
and doc_id padded with 0, lm_label_ids with -1). -/
def convert_example_to_features (cfg : MaskCfg) (randIdx : Nat) (draws : Nat → ℚ)
    (ex : InputExample) (max_seq_length : Nat) (tok : Tokenizer) : Option InputFeatures :=
  match random_word cfg randIdx draws ex.doc_tok tok with
  | none => none
  | some (doc_tokens, lm0) =>
    match tok.convert_tokens_to_ids doc_tokens with
    | none => none
    | some ids0 =>
      let mask0 := List.replicate ids0.length 1
      let did0 := List.replicate ids0.length ex.doc_id
      let ids1 := ids0.take max_seq_length
      let mask1 := mask0.take max_seq_length
      let did1 := did0.take max_seq_length
      let lm1 := lm0.take max_seq_length
      let pad := max_seq_length - ids1.length
      some ⟨ids1 ++ List.replicate pad 0, mask1 ++ List.replicate pad 0,
            did1 ++ List.replicate pad 0, lm1 ++ List.replicate pad (-1)⟩

/-- Python truthiness of self.tokenizer.vocab.get(x): None and the id 0 are
both falsy. -/
def pythonTruthy : Option Nat → Bool
  | none => false
  | some n => n != 0

/-- The membership filter of MyDataset.__getitem__:
list(filter(lambda x: self.tokenizer.vocab.get(x), doc_tok)). -/
def filterInVocab (tok : Tokenizer) (l : List String) : List String :=
  l.filter (fun x => pythonTruthy (tok.vocab.lookup x))

/-- The MyDataset state the sample path needs: the loaded documents and the
configured sequence length (the tokenizer is attached by build_vocab and
passed alongside). -/
structure MyDataset where
  all_docs : List String
  seq_len : Nat
deriving DecidableEq

/-- MyDataset.__getitem__(item): tokenize the document, keep only tokens
whose vocab lookup is truthy, then convert_example_to_features.  The sample
counter feeds only the one-time logging and is dropped; the masking
randomness is explicit. -/
def MyDataset.getitem (ds : MyDataset) (tok : Tokenizer) (item : Nat)
    (cfg : MaskCfg) (randIdx : Nat) (draws : Nat → ℚ) : Option InputFeatures :=
  match ds.all_docs.get? item with
  | none => none
  | some docStr =>
    let doc_tok := filterInVocab tok (tok.tokenize docStr)
    convert_example_to_features cfg randIdx draws ⟨0, doc_tok, item⟩ ds.seq_len tok

/-- Python str.strip() for ASCII whitespace. -/
def pyStrip (s : String) : String :=
  String.mk (((s.toList.dropWhile Char.isWhitespace).reverse.dropWhile Char.isWhitespace).reverse)

/-- The file branch of MyDataset.__init__: strip each line; a blank line
appends the accumulated document (possibly empty) and resets it, a non-blank
line is concatenated onto the accumulator; after the loop, the guard
`if self.all_docs[-1] != doc and doc` appends the trailing partial document.
Indexing all_docs[-1] on an empty list raises an IndexError (Except.error),
which happens whenever the file contains no blank line at all. -/
def loadDocsFromLines (lines : List String) : Except String (List String) :=
  let st := lines.foldl
    (fun (acc : List String × String) line =>
      let l := pyStrip line
      if l = "" then (acc.1 ++ [acc.2], "") else (acc.1, acc.2 ++ l))
    ([], "")
  match st.1.getLast? with
  | none => Except.error "IndexError: list index out of range"
  | some last => Except.ok (if last ≠ st.2 ∧ st.2 ≠ "" then st.1 ++ [st.2] else st.1)

/-- An entity record: a dict with the named string-set fields 'FIELD',
'TEC' (and 'MISC', untouched by the weight builder); Python sets are
modelled as duplicate-free lists in iteration order. -/
structure Entity where
  field : List String
  tec : List String
  misc : List String
deriving DecidableEq

/-- Python set.update: append the elements not already present, in order. -/
def setUpdate (s t : List String) : List String :=
  s ++ t.filter (fun x => x ∉ s)

/-- Python str.lower() for ASCII text. -/
def strLower (s : String) : String :=
  String.mk (s.toList.map Char.toLower)

/-- Python ' '.join. -/
def joinSpaces (l : List String) : String :=
  (l.intersperse " ").foldl (fun a b => a ++ b) ""

/-- The ids reachable from the entity strings: the source tokenizes the
space-joined lowercased union and converts it to ids;  a failure of the
conversion (no '[UNK]' in the vocab) cannot happen for a vocabulary built by
tokenizerInit and is mapped to the empty id list. -/
def entityIds (tok : Tokenizer) (ents : List String) : List Nat :=
  (tok.convert_tokens_to_ids (tok.tokenize (joinSpaces ents))).getD []

/-- The accumulated ents set of set_entities_weight: for each record the
lowercased strings of FIELD after its in-place union with TEC (Python
iterates a set here; this model fixes insertion order, which only permutes
the joined string's tokens and leaves the reachable id set unchanged). -/
def entityUnion (es : List Entity) : List String :=
  es.foldl (fun acc e => setUpdate acc ((setUpdate e.field e.tec).map strLower)) []

/-- MyDataset.set_entities_weight(entities, weight).  The loop mutates each
record in place: field_set.update(tec_set) adds the TEC strings to the
caller's FIELD set; the lowercased FIELD∪TEC strings accumulate into ents.
The weight vector starts as [1.0] * len(vocab) and the loop over
self.vocab.values() sets weights[word_id] = weight for every id appearing in
ent_ids.  The result pairs the weight vector with the entity records as the
caller sees them after the call. -/
def MyDataset.set_entities_weight (tok : Tokenizer)
    (entities : Option (List Entity)) (weight : ℚ) : List ℚ × Option (List Entity) :=
  match entities with
  | none => (List.replicate tok.vocab.length (1 : ℚ), none)
  | some es =>
    let es2 := es.map (fun e => { e with field := setUpdate e.field e.tec })
    let entIds := entityIds tok (entityUnion es)
    let weights := tok.vocab.foldl
      (fun (w : List ℚ) p => if p.2 ∈ entIds then w.set p.2 weight else w)
      (List.replicate tok.vocab.length (1 : ℚ))
    (weights, some es2)

/-- A Python value returned by the caller-supplied evaluation hook: either a
bare scalar or an indexable sequence of scalars. -/
inductive PyVal where
  | scalar (x : Int)
  | seqv (l : List Int)
deriving DecidableEq

/-- Python subscripting v[i]: a TypeError on a scalar, an IndexError out of
range. -/
def pyIndex : PyVal → Nat → Except String Int
  | PyVal.scalar _, _ => Except.error "TypeError: object is not subscriptable"
  | PyVal.seqv l, i =>
    match l.get? i with
    | none => Except.error "IndexError: list index out of range"
    | some x => Except.ok x

/-- The comprehension [f[1] for f in scores] of main. -/
def extractScores : List PyVal → Except String (List Int)
  | [] => Except.ok []
  | f :: fs =>
    match pyIndex f 1 with
    | Except.error e => Except.error e
    | Except.ok x =>
      match extractScores fs with
      | Except.error e => Except.error e
      | Except.ok xs => Except.ok (x :: xs)

/-- Python max() over a list, a ValueError when it is empty. -/
def pyMax : List Int → Except String Int
  | [] => Except.error "ValueError: max() arg is an empty sequence"
  | x :: xs => Except.ok (xs.foldl max x)

/-- One iteration of the sweep loop in main for a fixed configuration: the
gradient_accumulation_steps check, Tokenizer construction from the full
document list, then the epoch loop; the external model, optimizer and
per-batch work are out of scope, and the per-epoch hook results (the value
of hook(dataset, X) at each epoch) are supplied as a function of the epoch
index.  The configuration's entry for best_scores is
max([f[1] for f in scores]). -/
def runConfig (docs : List String) (vocabSize gradAccSteps : Int) (numEpochs : Nat)
    (hook : Nat → PyVal) : Except String Int :=
  if gradAccSteps < 1 then Except.error "ValueError: Invalid gradient_accumulation_steps"
  else
    match tokenizerInit vocabSize docs with
    | Except.error e => Except.error e
    | Except.ok _ =>
      let scores := (List.range numEpochs).map hook
      match extractScores scores with
      | Except.error e => Except.error e
      | Except.ok vals => pyMax vals

/-- The sweep loop of main: run each masking configuration in order,
appending its best score to best_scores; an exception anywhere aborts the
whole sweep. -/
def runSweep (docs : List String) (vocabSize gradAccSteps : Int) (numEpochs : Nat)
    (hook : MaskCfg → Nat → PyVal) : List MaskCfg → Except String (List Int)
  | [] => Except.ok []
  | p :: ps =>
    match runConfig docs vocabSize gradAccSteps numEpochs (hook p) with
    | Except.error e => Except.error e
    | Except.ok best =>
      match runSweep docs vocabSize gradAccSteps numEpochs hook ps with
      | Except.error e => Except.error e
      | Except.ok rest => Except.ok (best :: rest)

/-! Helper lemmas about association-list lookup. -/

theorem lookup_append_of_no_key {α β : Type} [BEq α] [LawfulBEq α]
    {l : List (α × β)} (l2 : List (α × β)) {k : α} (h : ∀ p ∈ l, p.1 ≠ k) :
    (l ++ l2).lookup k = l2.lookup k := by
  induction l with
  | nil => rfl
  | cons a t ih =>
    have ha : a.1 ≠ k := h a (List.mem_cons_self a t)
    have hk : (k == a.1) = false := beq_eq_false_iff_ne.mpr (fun he => ha he.symm)
    simp only [List.cons_append, List.lookup, hk]
    exact ih (fun p hp => h p (List.mem_cons_of_mem a hp))

theorem lookup_append_of_found {α β : Type} [BEq α] [LawfulBEq α]
    {l : List (α × β)} (l2 : List (α × β)) {k : α} {v : β} (h : l.lookup k = some v) :
    (l ++ l2).lookup k = some v := by
  induction l with
  | nil => simp [List.lookup] at h
  | cons a t ih =>
    simp only [List.cons_append, List.lookup] at h ⊢
    cases hk : (k == a.1) with
    | true => simpa [hk] using h
    | false =>
      simp only [hk] at h ⊢
      exact ih h

theorem lookup_of_nodup_keys {α β : Type} [BEq α] [LawfulBEq α] :
    ∀ {l : List (α × β)}, (l.map Prod.fst).Nodup → ∀ {p : α × β}, p ∈ l →
      l.lookup p.1 = some p.2 := by
  intro l
  induction l with
  | nil => intro _ p hp; cases hp
  | cons a t ih =>
    intro hnd p hp
    simp only [List.map_cons, List.nodup_cons] at hnd
    rcases List.mem_cons.mp hp with rfl | hmem
    · simp [List.lookup]
    · have hne : p.1 ≠ a.1 := by
        intro he
        exact hnd.1 (he ▸ List.mem_map_of_mem Prod.fst hmem)
      have hk : (p.1 == a.1) = false := beq_eq_false_iff_ne.mpr hne
      simp only [List.lookup, hk]
      exact ih hnd.2 hmem

/-- Membership in enumFrom is bounded by the starting offset and length. -/
theorem mem_enumFrom_bounds {α : Type} :
    ∀ (l : List α) (o : Nat) (q : Nat × α), q ∈ List.enumFrom o l →
      o ≤ q.1 ∧ q.1 < o + l.length ∧ q.2 ∈ l := by
  intro l
  induction l with
  | nil => intro o q hq; cases hq
  | cons a t ih =>
    intro o q hq
    simp only [List.enumFrom] at hq
    rcases List.mem_cons.mp hq with rfl | hmem
    · simp
    · obtain ⟨h1, h2, h3⟩ := ih (o + 1) q hmem
      exact ⟨by omega, by simpa [List.length_cons] using by omega, List.mem_cons_of_mem a h3⟩

/-- Lookup in an enumFrom association list finds the positional element. -/
theorem lookup_enumFrom {α : Type} :
    ∀ (l : List α) (o j : Nat), j < l.length →
      (List.enumFrom o l).lookup (o + j) = l.get? j := by
  intro l
  induction l with
  | nil => intro o j hj; cases hj
  | cons a t ih =>
    intro o j hj
    cases j with
    | zero => simp [List.enumFrom, List.lookup]
    | succ j =>
      have hne : (o + (j + 1) == o) = false := beq_eq_false_iff_ne.mpr (by omega)
      simp only [List.enumFrom, List.lookup, hne]
      have harith : o + (j + 1) = (o + 1) + j := by omega
      rw [harith, ih (o + 1) j (by simpa using Nat.lt_of_succ_lt_succ hj)]
      rfl

/-! C1, C2, C5, C6. -/

/-- C1: in single-token mode the code masks the uniformly drawn index and
returns -1 at every other label position, but the label written at the
masked index is the vocabulary id of '[MASK]' itself (3 here), not the
original token's id (1 for "bb"): tokens[mask_index] is overwritten before
the label comprehension reads it. -/
theorem random_word_single_records_mask_id :
    random_word MaskCfg.single 1 (fun _ => 0) ["aa", "bb"] ⟨mkVocab ["aa", "bb"]⟩ =
      some (["aa", "[MASK]"], [-1, 3]) ∧
    (Tokenizer.mk (mkVocab ["aa", "bb"])).vocab.lookup "bb" = some 1 ∧
    (Tokenizer.mk (mkVocab ["aa", "bb"])).vocab.lookup "[MASK]" = some 3 ∧
    (3 : Int) ≠ 1 :=
  ⟨rfl, rfl, rfl, by decide⟩

/-- C2 counterexample: on the scenario corpus the constructed vocabulary is
exactly the-0, UNK-1, MASK-2 (min_df = 2 removes every singleton token), and
SampleProvider access 0 produces no Feature at all: the token "the" holds id
0, which the truthy membership test of __getitem__ filters out, so
single-token masking runs on an empty list and random.randint raises. -/
theorem scenario_getitem_fails :
    tokenizerInit 28000 ["the cat sat", "", "the dog ran", ""] =
      Except.ok ⟨[("the", 0), ("[UNK]", 1), ("[MASK]", 2)]⟩ ∧
    MyDataset.getitem ⟨["the cat sat", "", "the dog ran", ""], 5⟩
      ⟨[("the", 0), ("[UNK]", 1), ("[MASK]", 2)]⟩ 0 MaskCfg.single 0 (fun _ => 0) = none :=
  ⟨rfl, rfl⟩

/-- C2 amended: on the scenario corpus every access fails for every document
index and every random draw; no Feature (with any input_mask) is produced. -/
theorem scenario_getitem_always_fails (item randIdx : Nat) (draws : Nat → ℚ)
    (h : item < 4) :
    MyDataset.getitem ⟨["the cat sat", "", "the dog ran", ""], 5⟩
      ⟨[("the", 0), ("[UNK]", 1), ("[MASK]", 2)]⟩ item MaskCfg.single randIdx draws = none := by
  interval_cases item <;> rfl

/-- Witness for the amended C2 statement at document 2 and draw 1. -/
theorem scenario_getitem_always_fails_witness :
    MyDataset.getitem ⟨["the cat sat", "", "the dog ran", ""], 5⟩
      ⟨[("the", 0), ("[UNK]", 1), ("[MASK]", 2)]⟩ 2 MaskCfg.single 1 (fun _ => 0) = none :=
  scenario_getitem_always_fails 2 1 (fun _ => 0) (by decide)

/-- C5: loading a corpus file whose lines contain no blank line at all
raises an IndexError instead of appending the trailing document (all_docs[-1]
is read on an empty list), and a trailing document equal to the last
completed document is silently dropped rather than appended. -/
theorem loadDocs_trailing_line_behavior :
    loadDocsFromLines ["hello"] = Except.error "IndexError: list index out of range" ∧
    loadDocsFromLines ["aa", "", "aa"] = Except.ok ["aa"] ∧
    loadDocsFromLines ["aa", "", "bb"] = Except.ok ["aa", "bb"] :=
  ⟨rfl, rfl, rfl⟩

/-- C6: for every target vocabulary size below 2, building the Tokenizer
fails (CountVectorizer rejects the non-positive max_features = V - 2), and
the whole per-configuration run fails with that same configuration error, for
every epoch count and every hook - that is, before any training happens. -/
theorem vocab_size_lt_two_fails (docs : List String) (V g : Int) (E : Nat)
    (hook : Nat → PyVal) (hV : V < 2) (hg : 1 ≤ g) :
    tokenizerInit V docs =
      Except.error "ValueError: max_features, neither a positive integer nor None" ∧
    runConfig docs V g E hook =
      Except.error "ValueError: max_features, neither a positive integer nor None" := by
  have hfit : countVectorizerFit (V - 2) 2 1000 docs =
      Except.error "ValueError: max_features, neither a positive integer nor None" := by
    unfold countVectorizerFit
    rw [if_pos (by omega)]
  have htok : tokenizerInit V docs =
      Except.error "ValueError: max_features, neither a positive integer nor None" := by
    unfold tokenizerInit
    rw [hfit]
    rfl
  refine ⟨htok, ?_⟩
  unfold runConfig
  rw [if_neg (by omega), htok]

/-- Witness for C6 at vocabulary size 1. -/
theorem vocab_size_lt_two_fails_witness :
    tokenizerInit 1 ["aa bb"] =
      Except.error "ValueError: max_features, neither a positive integer nor None" ∧
    runConfig ["aa bb"] 1 1 3 (fun _ => PyVal.scalar 0) =
      Except.error "ValueError: max_features, neither a positive integer nor None" :=
  vocab_size_lt_two_fails ["aa bb"] 1 1 3 (fun _ => PyVal.scalar 0) (by decide) (by decide)

/-! Structure of the vocabulary built by Tokenizer.__init__. -/

theorem pyDictSet_not_key {d : List (String × Nat)} {k : String} (v : Nat)
    (h : ∀ p ∈ d, p.1 ≠ k) : pyDictSet d k v = d ++ [(k, v)] := by
  unfold pyDictSet
  rw [if_neg]
  simp only [List.any_eq_true, decide_eq_true_eq, not_exists]
  intro p
  intro hcon
  exact h p hcon.1 hcon.2

theorem mem_enumFrom_of_get_eq {α : Type} :
    ∀ (l : List α) (o j : Nat) (t : α), l.get? j = some t → (o + j, t) ∈ List.enumFrom o l := by
  intro l
  induction l with
  | nil => intro o j t ht; simp at ht
  | cons a tl ih =>
    intro o j t ht
    cases j with
    | zero =>
      simp only [List.get?] at ht
      cases ht
      exact List.mem_cons_self _ _
    | succ j =>
      have harith : o + (j + 1) = (o + 1) + j := by omega
      rw [harith]
      exact List.mem_cons_of_mem _ (ih (o + 1) j t ht)

theorem mkVocab_keys_fresh (ts : List String) {k : String} (hk : k ∉ ts) :
    ∀ p ∈ ts.enum.map (fun q : Nat × String => (q.2, q.1)), p.1 ≠ k := by
  intro p hp
  obtain ⟨q, hq, rfl⟩ := List.mem_map.mp hp
  have hmem : q.2 ∈ ts := (mem_enumFrom_bounds ts 0 q hq).2.2
  intro he
  exact hk (he ▸ hmem)

/-- The vocab dict after __init__ is the enumerated term list followed by the
two sentinel entries, provided the corpus terms do not collide with the
sentinel spellings (CountVectorizer terms never do: they are lowercase
alphabetic). -/
theorem mkVocab_eq (ts : List String) (hU : "[UNK]" ∉ ts) (hM : "[MASK]" ∉ ts) :
    mkVocab ts = ts.enum.map (fun q : Nat × String => (q.2, q.1)) ++
      [("[UNK]", ts.length), ("[MASK]", ts.length + 1)] := by
  unfold mkVocab
  dsimp only
  have hlen0 : (ts.enum.map (fun q : Nat × String => (q.2, q.1))).length = ts.length := by
    simp
  rw [pyDictSet_not_key _ (mkVocab_keys_fresh ts hU), hlen0]
  have hkeys1 : ∀ p ∈ ts.enum.map (fun q : Nat × String => (q.2, q.1)) ++
      [("[UNK]", ts.length)], p.1 ≠ "[MASK]" := by
    intro p hp
    rcases List.mem_append.mp hp with hl | hr
    · exact mkVocab_keys_fresh ts hM p hl
    · simp only [List.mem_singleton] at hr
      subst hr
      show "[UNK]" ≠ "[MASK]"
      decide
  rw [pyDictSet_not_key _ hkeys1]
  simp [hlen0]

theorem mkVocab_length (ts : List String) (hU : "[UNK]" ∉ ts) (hM : "[MASK]" ∉ ts) :
    (mkVocab ts).length = ts.length + 2 := by
  rw [mkVocab_eq ts hU hM]
  simp

theorem mkVocab_lookup_unk (ts : List String) (hU : "[UNK]" ∉ ts) (hM : "[MASK]" ∉ ts) :
    (mkVocab ts).lookup "[UNK]" = some ts.length := by
  rw [mkVocab_eq ts hU hM, lookup_append_of_no_key _ (mkVocab_keys_fresh ts hU)]
  simp [List.lookup]

theorem mkVocab_lookup_mask (ts : List String) (hU : "[UNK]" ∉ ts) (hM : "[MASK]" ∉ ts) :
    (mkVocab ts).lookup "[MASK]" = some (ts.length + 1) := by
  rw [mkVocab_eq ts hU hM, lookup_append_of_no_key _ (mkVocab_keys_fresh ts hM)]
  simp [List.lookup]

/-- C7: in every vocabulary built by Tokenizer.__init__ from n ordinary
terms, '[UNK]' holds id n, '[MASK]' holds id n + 1, and every other entry
holds an id below n: the two sentinels are appended last with the two
highest ids. -/
theorem sentinel_ids_are_highest (ts : List String)
    (hU : "[UNK]" ∉ ts) (hM : "[MASK]" ∉ ts) :
    (mkVocab ts).lookup "[UNK]" = some ts.length ∧
    (mkVocab ts).lookup "[MASK]" = some (ts.length + 1) ∧
    ((mkVocab ts).filter
        (fun p => !(p.1 == "[UNK]" || p.1 == "[MASK]"))).all
      (fun p => decide (p.2 < ts.length)) = true := by
  refine ⟨mkVocab_lookup_unk ts hU hM, mkVocab_lookup_mask ts hU hM, ?_⟩
  rw [mkVocab_eq ts hU hM, List.filter_append, List.all_append]
  have htail : ([("[UNK]", ts.length), ("[MASK]", ts.length + 1)]).filter
      (fun p => !(p.1 == "[UNK]" || p.1 == "[MASK]")) = [] := by
    simp [List.filter]
  rw [htail]
  simp only [List.all_nil, Bool.and_true]
  rw [List.all_eq_true]
  intro p hp
  have hp0 : p ∈ ts.enum.map (fun q : Nat × String => (q.2, q.1)) := List.mem_of_mem_filter hp
  obtain ⟨q, hq, rfl⟩ := List.mem_map.mp hp0
  have hb := (mem_enumFrom_bounds ts 0 q hq).2.1
  simp only [decide_eq_true_eq]
  omega

/-- Witness for C7 with the two-term vocabulary aa, bb. -/
theorem sentinel_ids_are_highest_witness :
    (mkVocab ["aa", "bb"]).lookup "[UNK]" = some 2 ∧
    (mkVocab ["aa", "bb"]).lookup "[MASK]" = some 3 ∧
    ((mkVocab ["aa", "bb"]).filter
        (fun p => !(p.1 == "[UNK]" || p.1 == "[MASK]"))).all
      (fun p => decide (p.2 < 2)) = true :=
  sentinel_ids_are_highest ["aa", "bb"] (by decide) (by decide)

/-! C8: the id-token round trip. -/

theorem mkVocab_revMap_eq (ts : List String) (hU : "[UNK]" ∉ ts) (hM : "[MASK]" ∉ ts) :
    (mkVocab ts).map (fun p : String × Nat => (p.2, p.1)) =
      ts.enum ++ [(ts.length, "[UNK]"), (ts.length + 1, "[MASK]")] := by
  rw [mkVocab_eq ts hU hM]
  simp [List.map_map, Function.comp_def]

theorem mkVocab_keys_nodup (ts : List String) (hnd : ts.Nodup)
    (hU : "[UNK]" ∉ ts) (hM : "[MASK]" ∉ ts) :
    ((mkVocab ts).map Prod.fst).Nodup := by
  rw [mkVocab_eq ts hU hM]
  rw [List.map_append, List.nodup_append]
  have hkeys : (ts.enum.map (fun q : Nat × String => (q.2, q.1))).map Prod.fst = ts := by
    rw [List.map_map]
    exact List.enum_map_snd ts
  rw [hkeys]
  refine ⟨hnd, ?_, ?_⟩
  · show (["[UNK]", "[MASK]"] : List String).Nodup
    decide
  intro a ha hb
  simp only [List.map_cons, List.map_nil, List.mem_cons, List.mem_singleton] at hb
  rcases hb with rfl | hb
  · exact hU ha
  · simp only [List.not_mem_nil, or_false] at hb
    subst hb
    exact hM ha

/-- For each id in the valid range, the reverse dict finds a token whose
forward lookup returns that id again. -/
theorem mkVocab_revLookup (ts : List String) (hnd : ts.Nodup)
    (hU : "[UNK]" ∉ ts) (hM : "[MASK]" ∉ ts) (i : Nat) (hi : i < ts.length + 2) :
    ∃ t, ((mkVocab ts).map (fun p : String × Nat => (p.2, p.1))).lookup i = some t ∧
      (mkVocab ts).lookup t = some i := by
  rw [mkVocab_revMap_eq ts hU hM]
  have henum_keys : ∀ j, ts.length ≤ j → ∀ p ∈ ts.enum, p.1 ≠ j := by
    intro j hj p hp
    have := (mem_enumFrom_bounds ts 0 p hp).2.1
    omega
  by_cases hlt : i < ts.length
  · obtain ⟨t, ht⟩ : ∃ t, ts.get? i = some t := by
      rw [List.get?_eq_get hlt]
      exact ⟨ts.get ⟨i, hlt⟩, rfl⟩
    refine ⟨t, ?_, ?_⟩
    · apply lookup_append_of_found
      have hl := lookup_enumFrom ts 0 i hlt
      rw [Nat.zero_add, ht] at hl
      exact hl
    · have hmem : (t, i) ∈ mkVocab ts := by
        rw [mkVocab_eq ts hU hM]
        apply List.mem_append_left
        apply List.mem_map.mpr
        refine ⟨(i, t), ?_, rfl⟩
        have := mem_enumFrom_of_get_eq ts 0 i t ht
        rw [Nat.zero_add] at this
        exact this
      exact lookup_of_nodup_keys (mkVocab_keys_nodup ts hnd hU hM) hmem
  · have hcases : i = ts.length ∨ i = ts.length + 1 := by omega
    rcases hcases with rfl | rfl
    · refine ⟨"[UNK]", ?_, mkVocab_lookup_unk ts hU hM⟩
      rw [lookup_append_of_no_key _ (henum_keys ts.length (Nat.le_refl _))]
      simp [List.lookup]
    · refine ⟨"[MASK]", ?_, mkVocab_lookup_mask ts hU hM⟩
      rw [lookup_append_of_no_key _ (henum_keys (ts.length + 1) (Nat.le_succ _))]
      have hne : (ts.length + 1 == ts.length) = false := beq_eq_false_iff_ne.mpr (by omega)
      simp [List.lookup, hne]

theorem roundtrip_aux (ts : List String) (hnd : ts.Nodup)
    (hU : "[UNK]" ∉ ts) (hM : "[MASK]" ∉ ts) :
    ∀ ids : List Nat, (∀ i ∈ ids, i < ts.length + 2) →
      ∃ toks, Tokenizer.convert_ids_to_tokens ⟨mkVocab ts⟩ ids = some toks ∧
        Tokenizer.convert_tokens_to_ids ⟨mkVocab ts⟩ toks = some ids := by
  intro ids
  induction ids with
  | nil => exact fun _ => ⟨[], rfl, rfl⟩
  | cons i rest ih =>
    intro hall
    obtain ⟨t, hrev, hfwd⟩ :=
      mkVocab_revLookup ts hnd hU hM i (hall i (List.mem_cons_self i rest))
    obtain ⟨toks, h1, h2⟩ := ih (fun j hj => hall j (List.mem_cons_of_mem _ hj))
    refine ⟨t :: toks, ?_, ?_⟩
    · simp only [Tokenizer.convert_ids_to_tokens, hrev, h1, Option.map_some']
    · simp only [Tokenizer.convert_tokens_to_ids, Tokenizer.resolveId, hfwd, h2,
        Option.map_some']

/-- C8: converting any id sequence from the vocabulary's valid id range to
tokens and back returns the original sequence. -/
theorem ids_tokens_roundtrip (ts : List String) (ids : List Nat) (hnd : ts.Nodup)
    (hU : "[UNK]" ∉ ts) (hM : "[MASK]" ∉ ts)
    (hids : ∀ i ∈ ids, i < (mkVocab ts).length) :
    (Tokenizer.convert_ids_to_tokens ⟨mkVocab ts⟩ ids).bind
      (fun toks => Tokenizer.convert_tokens_to_ids ⟨mkVocab ts⟩ toks) = some ids := by
  have hlen := mkVocab_length ts hU hM
  obtain ⟨toks, h1, h2⟩ := roundtrip_aux ts hnd hU hM ids
    (fun i hi => by have := hids i hi; omega)
  rw [h1]
  simpa using h2

/-- Witness for C8 on the vocabulary aa, bb with the id sequence 3, 1, 0. -/
theorem ids_tokens_roundtrip_witness :
    (Tokenizer.convert_ids_to_tokens ⟨mkVocab ["aa", "bb"]⟩ [3, 1, 0]).bind
      (fun toks => Tokenizer.convert_tokens_to_ids ⟨mkVocab ["aa", "bb"]⟩ toks) =
      some [3, 1, 0] :=
  ids_tokens_roundtrip ["aa", "bb"] [3, 1, 0] (by decide) (by decide) (by decide)
    (by decide)

/-! Pointwise getD helpers for the padding and truncation reasoning. -/

theorem getD_append_left {α : Type} (l1 l2 : List α) (d : α) (i : Nat)
    (h : i < l1.length) : (l1 ++ l2).getD i d = l1.getD i d := by
  rw [List.getD_eq_getElem?_getD, List.getD_eq_getElem?_getD, List.getElem?_append, if_pos h]

theorem getD_append_right {α : Type} (l1 l2 : List α) (d : α) (i : Nat)
    (h : l1.length ≤ i) : (l1 ++ l2).getD i d = l2.getD (i - l1.length) d := by
  rw [List.getD_eq_getElem?_getD, List.getD_eq_getElem?_getD, List.getElem?_append_right h]

theorem getD_take {α : Type} (l : List α) (m i : Nat) (d : α) (h : i < m) :
    (l.take m).getD i d = l.getD i d := by
  rw [List.getD_eq_getElem?_getD, List.getD_eq_getElem?_getD, List.getElem?_take, if_pos h]

theorem getD_replicate {α : Type} (n : Nat) (a d : α) (i : Nat) (h : i < n) :
    (List.replicate n a).getD i d = a := by
  rw [List.getD_eq_getElem?_getD, List.getElem?_replicate, if_pos h]
  rfl

theorem filter_range_split (M k : Nat) (ff gg : Nat → Bool) (hk : k ≤ M)
    (h1 : ∀ i, i < k → ff i = gg i) (h2 : ∀ i, k ≤ i → i < M → ff i = false) :
    (List.range M).filter ff = (List.range k).filter gg := by
  have hM : M = k + (M - k) := by omega
  conv_lhs => rw [hM]
  rw [List.range_add, List.filter_append]
  have hnil : ((List.range (M - k)).map (fun x => k + x)).filter ff = [] := by
    rw [List.filter_eq_nil]
    intro a ha
    obtain ⟨x, hx, rfl⟩ := List.mem_map.mp ha
    have hxlt := List.mem_range.mp hx
    simp [h2 (k + x) (by omega) (by omega)]
  rw [hnil, List.append_nil]
  exact List.filter_congr (fun x hx => h1 x (List.mem_range.mp hx))

/-! Behaviour of the two masking modes of random_word. -/

theorem probMask_spec (p : ℚ) (draws : Nat → ℚ) (tok : Tokenizer) :
    ∀ (l : List String) (o : Nat) (us : List String) (ls : List Int),
      probMask p draws tok o l = some (us, ls) →
      us.length = l.length ∧ ls.length = l.length ∧
      ∀ j, j < l.length →
        ((ls.getD j 0 != -1) = decide (draws (o + j) < p) ∧
         us.getD j "" = (if draws (o + j) < p then "[MASK]" else l.getD j "")) := by
  intro l
  induction l with
  | nil =>
    intro o us ls h
    simp only [probMask, Option.some.injEq, Prod.mk.injEq] at h
    obtain ⟨h1, h2⟩ := h
    subst h1
    subst h2
    exact ⟨rfl, rfl, fun j hj => absurd hj (by simp)⟩
  | cons t rest ih =>
    intro o us ls h
    simp only [probMask] at h
    by_cases hd : draws o < p
    · rw [if_pos hd] at h
      cases hres : tok.resolveId t with
      | none => rw [hres] at h; cases h
      | some i =>
        rw [hres, Option.map_eq_some'] at h
        obtain ⟨⟨us2, ls2⟩, hrec, heq⟩ := h
        obtain ⟨hxu, hxl⟩ := Prod.mk.injEq .. ▸ heq
        subst hxu
        subst hxl
        obtain ⟨hlu, hll, hpt⟩ := ih (o + 1) us2 ls2 hrec
        refine ⟨by simp [hlu], by simp [hll], ?_⟩
        intro j hj
        cases j with
        | zero =>
          have hz : o + 0 = o := rfl
          constructor
          · rw [List.getD_cons_zero, hz]
            have hb : ((i : Int) != -1) = true := by
              have : (i : Int) ≠ -1 := by omega
              simp [this]
            rw [hb, decide_eq_true hd]
          · rw [List.getD_cons_zero, hz, if_pos hd]
        | succ j =>
          have hj2 : j < rest.length := by simpa using Nat.lt_of_succ_lt_succ hj
          obtain ⟨hA, hB⟩ := hpt j hj2
          have harith : o + (j + 1) = (o + 1) + j := by omega
          exact ⟨by rw [List.getD_cons_succ, harith, hA],
                 by rw [List.getD_cons_succ, List.getD_cons_succ, harith, hB]⟩
    · rw [if_neg hd] at h
      rw [Option.map_eq_some'] at h
      obtain ⟨⟨us2, ls2⟩, hrec, heq⟩ := h
      obtain ⟨hxu, hxl⟩ := Prod.mk.injEq .. ▸ heq
      subst hxu
      subst hxl
      obtain ⟨hlu, hll, hpt⟩ := ih (o + 1) us2 ls2 hrec
      refine ⟨by simp [hlu], by simp [hll], ?_⟩
      intro j hj
      cases j with
      | zero =>
        have hz : o + 0 = o := rfl
        constructor
        · rw [List.getD_cons_zero, hz]
          have hb : ((-1 : Int) != -1) = false := by simp
          rw [hb, decide_eq_false hd]
        · rw [List.getD_cons_zero, hz, if_neg hd, List.getD_cons_zero]
      | succ j =>
        have hj2 : j < rest.length := by simpa using Nat.lt_of_succ_lt_succ hj
        obtain ⟨hA, hB⟩ := hpt j hj2
        have harith : o + (j + 1) = (o + 1) + j := by omega
        exact ⟨by rw [List.getD_cons_succ, harith, hA],
               by rw [List.getD_cons_succ, List.getD_cons_succ, harith, hB]⟩

theorem random_word_spec (cfg : MaskCfg) (randIdx : Nat) (draws : Nat → ℚ)
    (tokens : List String) (tok : Tokenizer) (masked : List String) (ls : List Int)
    (h : random_word cfg randIdx draws tokens tok = some (masked, ls)) :
    masked.length = tokens.length ∧ ls.length = tokens.length ∧
    ∀ j, j < tokens.length →
      ((ls.getD j 0 != -1) = maskedAtB cfg randIdx draws j ∧
       masked.getD j "" =
         (if maskedAtB cfg randIdx draws j then "[MASK]" else tokens.getD j "")) := by
  cases cfg with
  | single =>
    simp only [random_word] at h
    by_cases h0 : tokens.length = 0
    · rw [if_pos h0] at h; cases h
    rw [if_neg h0] at h
    by_cases hr : randIdx < tokens.length
    · rw [if_pos hr] at h
      cases hm : tok.vocab.lookup "[MASK]" with
      | none => rw [hm] at h; cases h
      | some m =>
        rw [hm] at h
        simp only [Option.some.injEq, Prod.mk.injEq] at h
        obtain ⟨h1, h2⟩ := h
        subst h1
        subst h2
        refine ⟨by simp, by simp, ?_⟩
        intro j hj
        have hlab : ((List.range tokens.length).map
            (fun i => if i = randIdx then (m : Int) else (-1 : Int))).getD j 0 =
            (if j = randIdx then (m : Int) else (-1 : Int)) := by
          rw [List.getD_eq_getElem?_getD, List.getElem?_map, List.getElem?_range hj]
          rfl
        constructor
        · rw [hlab]
          by_cases hjr : j = randIdx
          · rw [if_pos hjr]
            have hb : ((m : Int) != -1) = true := by
              have : (m : Int) ≠ -1 := by omega
              simp [this]
            rw [hb]
            simp [maskedAtB, hjr]
          · rw [if_neg hjr]
            have hb : ((-1 : Int) != -1) = false := by simp
            rw [hb]
            simp [maskedAtB, hjr]
        · by_cases hjr : j = randIdx
          · subst hjr
            have : (tokens.set j "[MASK]").getD j "" = "[MASK]" := by
              rw [List.getD_eq_getElem?_getD, List.getElem?_set_self hj]
              rfl
            rw [this]
            simp [maskedAtB]
          · have : (tokens.set randIdx "[MASK]").getD j "" = tokens.getD j "" := by
              rw [List.getD_eq_getElem?_getD, List.getD_eq_getElem?_getD,
                List.getElem?_set_ne (fun he => hjr he.symm)]
            rw [this]
            simp [maskedAtB, hjr]
    · rw [if_neg hr] at h; cases h
  | prob p =>
    simp only [random_word] at h
    obtain ⟨hlu, hll, hpt⟩ := probMask_spec p draws tok tokens 0 masked ls h
    refine ⟨hlu, hll, ?_⟩
    intro j hj
    obtain ⟨hA, hB⟩ := hpt j hj
    rw [Nat.zero_add] at hA hB
    constructor
    · rw [hA]
      rfl
    · rw [hB]
      by_cases hc : draws j < p
      · simp [maskedAtB, hc]
      · simp [maskedAtB, hc]

theorem convert_tokens_to_ids_spec (tok : Tokenizer) :
    ∀ (l : List String) (ids : List Nat), tok.convert_tokens_to_ids l = some ids →
      ids.length = l.length ∧
      ∀ j, j < l.length → tok.resolveId (l.getD j "") = some (ids.getD j 0) := by
  intro l
  induction l with
  | nil =>
    intro ids h
    simp only [Tokenizer.convert_tokens_to_ids, Option.some.injEq] at h
    subst h
    exact ⟨rfl, fun j hj => absurd hj (by simp)⟩
  | cons t rest ih =>
    intro ids h
    simp only [Tokenizer.convert_tokens_to_ids] at h
    cases hres : tok.resolveId t with
    | none => rw [hres] at h; cases h
    | some i =>
      rw [hres, Option.map_eq_some'] at h
      obtain ⟨ids2, hrec, rfl⟩ := h
      obtain ⟨hlen, hpt⟩ := ih ids2 hrec
      refine ⟨by simp [hlen], ?_⟩
      intro j hj
      cases j with
      | zero => simpa using hres
      | succ j =>
        rw [List.getD_cons_succ, List.getD_cons_succ]
        exact hpt j (by simpa using Nat.lt_of_succ_lt_succ hj)

/-- C3: the encoder's postconditions: all four sequences of the produced
Feature have length exactly max_seq_length; from position min(n, max) on
(n the token count of the document) input_ids, input_mask and doc_id hold 0
and lm_label_ids holds -1; and the positions whose label differs from -1 are
exactly the masked positions inside the pre-truncation, pre-padding range. -/
theorem convert_example_to_features_post (cfg : MaskCfg) (randIdx : Nat)
    (draws : Nat → ℚ) (ex : InputExample) (M : Nat) (tok : Tokenizer)
    (f : InputFeatures)
    (h : convert_example_to_features cfg randIdx draws ex M tok = some f) :
    (f.input_ids.length = M ∧ f.input_mask.length = M ∧
     f.doc_id.length = M ∧ f.lm_label_ids.length = M) ∧
    (f.input_ids.drop (min ex.doc_tok.length M) =
        List.replicate (M - min ex.doc_tok.length M) 0 ∧
     f.input_mask.drop (min ex.doc_tok.length M) =
        List.replicate (M - min ex.doc_tok.length M) 0 ∧
     f.doc_id.drop (min ex.doc_tok.length M) =
        List.replicate (M - min ex.doc_tok.length M) 0 ∧
     f.lm_label_ids.drop (min ex.doc_tok.length M) =
        List.replicate (M - min ex.doc_tok.length M) (-1)) ∧
    (List.range M).filter (fun i => f.lm_label_ids.getD i 0 != -1) =
      (List.range (min ex.doc_tok.length M)).filter
        (fun i => maskedAtB cfg randIdx draws i) := by
  unfold convert_example_to_features at h
  cases hrw : random_word cfg randIdx draws ex.doc_tok tok with
  | none => rw [hrw] at h; cases h
  | some pr =>
    obtain ⟨dt, lm0⟩ := pr
    rw [hrw] at h
    dsimp only at h
    cases hco : tok.convert_tokens_to_ids dt with
    | none => rw [hco] at h; cases h
    | some ids0 =>
      rw [hco] at h
      dsimp only at h
      obtain ⟨hmlen, hllen, _⟩ := random_word_spec cfg randIdx draws ex.doc_tok tok dt lm0 hrw
      obtain ⟨hilen, _⟩ := convert_tokens_to_ids_spec tok dt ids0 hco
      have hids : ids0.length = ex.doc_tok.length := by rw [hilen, hmlen]
      have hlm : lm0.length = ex.doc_tok.length := hllen
      injection h with h
      subst h
      dsimp only
      have hkM : min ex.doc_tok.length M ≤ M := Nat.min_le_right _ _
      have hk1 : (ids0.take M).length = min ex.doc_tok.length M := by
        rw [List.length_take, hids, Nat.min_comm]
      have hk2 : ((List.replicate ids0.length 1).take M).length = min ex.doc_tok.length M := by
        rw [List.length_take, List.length_replicate, hids, Nat.min_comm]
      have hk3 : ((List.replicate ids0.length ex.doc_id).take M).length =
          min ex.doc_tok.length M := by
        rw [List.length_take, List.length_replicate, hids, Nat.min_comm]
      have hk4 : (lm0.take M).length = min ex.doc_tok.length M := by
        rw [List.length_take, hlm, Nat.min_comm]
      refine ⟨⟨?_, ?_, ?_, ?_⟩, ⟨?_, ?_, ?_, ?_⟩, ?_⟩
      · rw [List.length_append, List.length_replicate, hk1]
        omega
      · rw [List.length_append, List.length_replicate, hk2, hk1]
        omega
      · rw [List.length_append, List.length_replicate, hk3, hk1]
        omega
      · rw [List.length_append, List.length_replicate, hk4, hk1]
        omega
      · rw [List.drop_left' hk1, hk1]
      · rw [List.drop_left' hk2, hk1]
      · rw [List.drop_left' hk3, hk1]
      · rw [List.drop_left' hk4, hk1]
      · apply filter_range_split _ _ _ _ hkM
        · intro i hi
          have hi2 : i < ex.doc_tok.length := lt_of_lt_of_le hi (Nat.min_le_left _ _)
          have hiM : i < M := lt_of_lt_of_le hi hkM
          have hv : ((lm0.take M) ++
              List.replicate (M - (ids0.take M).length) (-1 : Int)).getD i 0 =
              lm0.getD i 0 := by
            rw [getD_append_left _ _ _ _ (by rw [hk4]; exact hi), getD_take _ _ _ _ hiM]
          rw [hv]
          exact ((random_word_spec cfg randIdx draws ex.doc_tok tok dt lm0 hrw).2.2 i hi2).1
        · intro i hge hiM
          have hv : ((lm0.take M) ++
              List.replicate (M - (ids0.take M).length) (-1 : Int)).getD i 0 =
              (-1 : Int) := by
            rw [getD_append_right _ _ _ _ (by rw [hk4]; exact hge)]
            rw [hk4, hk1]
            exact getD_replicate _ _ _ _ (by omega)
          rw [hv]
          simp

/-- Witness for C3: single-token masking of index 0 in a two-token document
encoded at max_seq_length 4. -/
theorem convert_example_to_features_post_witness :
    (([3, 1, 0, 0] : List Nat).length = 4 ∧ ([1, 1, 0, 0] : List Nat).length = 4 ∧
     ([1, 1, 0, 0] : List Nat).length = 4 ∧ ([3, -1, -1, -1] : List Int).length = 4) ∧
    (([3, 1, 0, 0] : List Nat).drop 2 = List.replicate 2 0 ∧
     ([1, 1, 0, 0] : List Nat).drop 2 = List.replicate 2 0 ∧
     ([1, 1, 0, 0] : List Nat).drop 2 = List.replicate 2 0 ∧
     ([3, -1, -1, -1] : List Int).drop 2 = List.replicate 2 (-1)) ∧
    (List.range 4).filter (fun i => ([3, -1, -1, -1] : List Int).getD i 0 != -1) =
      (List.range 2).filter (fun i => maskedAtB MaskCfg.single 0 (fun _ => 0) i) :=
  convert_example_to_features_post MaskCfg.single 0 (fun _ => 0) ⟨0, ["aa", "bb"], 1⟩ 4
    ⟨mkVocab ["aa", "bb"]⟩ ⟨[3, 1, 0, 0], [1, 1, 0, 0], [1, 1, 0, 0], [3, -1, -1, -1]⟩ rfl

/-- C10: the membership filter of __getitem__ tests the truthiness of the
looked-up id, so it removes both the out-of-vocabulary tokens and the token
holding id 0; consequently, in every Feature the sample provider produces
from a Tokenizer-built vocabulary, no real-token position (input_mask 1)
carries input id 0. -/
theorem getitem_never_emits_id_zero (ds : MyDataset) (ts : List String) (item : Nat)
    (cfg : MaskCfg) (randIdx : Nat) (draws : Nat → ℚ) (f : InputFeatures)
    (hU : "[UNK]" ∉ ts) (hM : "[MASK]" ∉ ts)
    (h : ds.getitem ⟨mkVocab ts⟩ item cfg randIdx draws = some f) :
    (∀ (l : List String) (x : String), x ∈ filterInVocab ⟨mkVocab ts⟩ l →
      ∃ m, (Tokenizer.mk (mkVocab ts)).vocab.lookup x = some m ∧ m ≠ 0) ∧
    (List.range ds.seq_len).filter
      (fun i => (f.input_mask.getD i 0 == 1) && (f.input_ids.getD i 0 == 0)) = [] := by
  have hfilter : ∀ (l : List String) (x : String), x ∈ filterInVocab ⟨mkVocab ts⟩ l →
      ∃ m, (Tokenizer.mk (mkVocab ts)).vocab.lookup x = some m ∧ m ≠ 0 := by
    intro l x hx
    have htr := (List.mem_filter.mp hx).2
    cases hlk : (Tokenizer.mk (mkVocab ts)).vocab.lookup x with
    | none => rw [hlk] at htr; cases htr
    | some m =>
      rw [hlk] at htr
      refine ⟨m, rfl, ?_⟩
      simpa [pythonTruthy] using htr
  refine ⟨hfilter, ?_⟩
  unfold MyDataset.getitem at h
  cases hdoc : ds.all_docs.get? item with
  | none => rw [hdoc] at h; cases h
  | some doc =>
    rw [hdoc] at h
    dsimp only at h
    unfold convert_example_to_features at h
    dsimp only at h
    cases hrw : random_word cfg randIdx draws
        (filterInVocab ⟨mkVocab ts⟩ (Tokenizer.tokenize ⟨mkVocab ts⟩ doc)) ⟨mkVocab ts⟩ with
    | none => rw [hrw] at h; cases h
    | some pr =>
      obtain ⟨mtoks, lm0⟩ := pr
      rw [hrw] at h
      dsimp only at h
      cases hco : (Tokenizer.mk (mkVocab ts)).convert_tokens_to_ids mtoks with
      | none => rw [hco] at h; cases h
      | some ids0 =>
        rw [hco] at h
        dsimp only at h
        injection h with h
        subst h
        dsimp only
        obtain ⟨hmlen, hllen, hpt⟩ := random_word_spec cfg randIdx draws _ _ mtoks lm0 hrw
        obtain ⟨hilen, hcpt⟩ := convert_tokens_to_ids_spec _ mtoks ids0 hco
        set dt0 := filterInVocab ⟨mkVocab ts⟩ (Tokenizer.tokenize ⟨mkVocab ts⟩ doc) with hdt0
        have hids : ids0.length = dt0.length := by rw [hilen, hmlen]
        have hk1 : (ids0.take ds.seq_len).length = min dt0.length ds.seq_len := by
          rw [List.length_take, hids, Nat.min_comm]
        have hk2 : ((List.replicate ids0.length 1).take ds.seq_len).length =
            min dt0.length ds.seq_len := by
          rw [List.length_take, List.length_replicate, hids, Nat.min_comm]
        rw [List.filter_eq_nil]
        intro i hi
        have hiM : i < ds.seq_len := List.mem_range.mp hi
        by_cases hik : i < min dt0.length ds.seq_len
        · have hidt : i < dt0.length := lt_of_lt_of_le hik (Nat.min_le_left _ _)
          have hvid : ((ids0.take ds.seq_len) ++
              List.replicate (ds.seq_len - (ids0.take ds.seq_len).length) 0).getD i 0 =
              ids0.getD i 0 := by
            rw [getD_append_left _ _ _ _ (by rw [hk1]; exact hik),
              getD_take _ _ _ _ hiM]
          have hres := hcpt i (by rw [hmlen]; exact hidt)
          have hne : ids0.getD i 0 ≠ 0 := by
            obtain ⟨hA, hB⟩ := hpt i hidt
            by_cases hmask : maskedAtB cfg randIdx draws i
            · rw [if_pos hmask] at hB
              rw [hB] at hres
              have hmid : (Tokenizer.mk (mkVocab ts)).resolveId "[MASK]" =
                  some (ts.length + 1) := by
                unfold Tokenizer.resolveId
                rw [mkVocab_lookup_mask ts hU hM]
              rw [hmid] at hres
              simp only [Option.some.injEq] at hres
              omega
            · rw [if_neg (by simp [hmask])] at hB
              have hmem : dt0.getD i "" ∈ dt0 := by
                rw [List.getD_eq_getElem?_getD, List.getElem?_eq_getElem hidt]
                exact List.getElem_mem hidt
              obtain ⟨m, hm1, hm2⟩ := hfilter _ _ hmem
              have hrid : (Tokenizer.mk (mkVocab ts)).resolveId (dt0.getD i "") = some m := by
                unfold Tokenizer.resolveId
                rw [hm1]
              rw [hB, hrid] at hres
              simp only [Option.some.injEq] at hres
              omega
          rw [hvid]
          simp only [Bool.and_eq_true, beq_iff_eq, not_and]
          exact fun _ => hne
        · have hge : min dt0.length ds.seq_len ≤ i := by omega
          have hvmask : (((List.replicate ids0.length 1).take ds.seq_len) ++
              List.replicate (ds.seq_len - (ids0.take ds.seq_len).length) 0).getD i 0 =
              0 := by
            rw [getD_append_right _ _ _ _ (by rw [hk2]; exact hge), hk2, hk1]
            exact getD_replicate _ _ _ _ (by omega)
          rw [hvmask]
          simp

/-- Witness for C10: document "aa bb", vocabulary aa-0, bb-1; the token aa
(id 0) is filtered away and the produced Feature holds no id 0 at a
real-token position. -/
theorem getitem_never_emits_id_zero_witness :
    (∀ (l : List String) (x : String), x ∈ filterInVocab ⟨mkVocab ["aa", "bb"]⟩ l →
      ∃ m, (Tokenizer.mk (mkVocab ["aa", "bb"])).vocab.lookup x = some m ∧ m ≠ 0) ∧
    (List.range 4).filter
      (fun i => (([1, 0, 0, 0] : List Nat).getD i 0 == 1) &&
        (([3, 0, 0, 0] : List Nat).getD i 0 == 0)) = [] :=
  getitem_never_emits_id_zero ⟨["aa bb"], 4⟩ ["aa", "bb"] 0 MaskCfg.single 0 (fun _ => 0)
    ⟨[3, 0, 0, 0], [1, 0, 0, 0], [0, 0, 0, 0], [3, -1, -1, -1]⟩ (by decide) (by decide) rfl

/-! C9: the entity weight builder. -/

theorem weight_fold_spec (entIds : List Nat) (w : ℚ) :
    ∀ (v : List (String × Nat)) (w0 : List ℚ),
      (v.foldl (fun (acc : List ℚ) p => if p.2 ∈ entIds then acc.set p.2 w else acc)
          w0).length = w0.length ∧
      ∀ i, i < w0.length →
        (v.foldl (fun (acc : List ℚ) p => if p.2 ∈ entIds then acc.set p.2 w else acc)
            w0).getD i 0 =
          (if v.any (fun p => (p.2 == i) && decide (p.2 ∈ entIds)) then w
           else w0.getD i 0) := by
  intro v
  induction v with
  | nil =>
    intro w0
    exact ⟨rfl, fun i _ => by simp⟩
  | cons p v ih =>
    intro w0
    have hstep : ((if p.2 ∈ entIds then w0.set p.2 w else w0) : List ℚ).length =
        w0.length := by
      by_cases hp : p.2 ∈ entIds
      · simp [hp]
      · simp [hp]
    obtain ⟨ihlen, ihpt⟩ := ih (if p.2 ∈ entIds then w0.set p.2 w else w0)
    constructor
    · simpa [hstep] using ihlen
    · intro i hi
      have h2 := ihpt i (by rw [hstep]; exact hi)
      simp only [List.foldl_cons]
      rw [h2]
      by_cases hany : v.any (fun p => (p.2 == i) && decide (p.2 ∈ entIds))
      · rw [if_pos hany]
        have : (p :: v).any (fun p => (p.2 == i) && decide (p.2 ∈ entIds)) = true := by
          simp only [List.any_cons, Bool.or_eq_true]
          exact Or.inr hany
        rw [if_pos this]
      · rw [if_neg hany]
        by_cases hhead : (p.2 == i) && decide (p.2 ∈ entIds)
        · have hin : p.2 ∈ entIds := by
            have := (Bool.and_eq_true _ _).mp hhead
            exact of_decide_eq_true this.2
          have hpi : p.2 = i := by
            have := (Bool.and_eq_true _ _).mp hhead
            exact beq_iff_eq.mp this.1
          have hcons : (p :: v).any (fun p => (p.2 == i) && decide (p.2 ∈ entIds)) = true := by
            simp only [List.any_cons, Bool.or_eq_true]
            exact Or.inl hhead
          rw [if_pos hcons, if_pos hin, hpi]
          rw [List.getD_eq_getElem?_getD, List.getElem?_set_self (by omega)]
          rfl
        · have hcons : (p :: v).any (fun p => (p.2 == i) && decide (p.2 ∈ entIds)) = false := by
            simp only [List.any_cons, Bool.or_eq_false_iff]
            exact ⟨Bool.eq_false_iff.mpr hhead, Bool.eq_false_iff.mpr hany⟩
          have hng : ¬(false = true) := by simp
          rw [hcons, if_neg hng]
          by_cases hin : p.2 ∈ entIds
          · have hpi : p.2 ≠ i := by
              intro he
              apply hhead
              simp only [he, beq_self_eq_true, Bool.true_and]
              exact decide_eq_true (he ▸ hin)
            rw [if_pos hin, List.getD_eq_getElem?_getD, List.getD_eq_getElem?_getD,
              List.getElem?_set_ne hpi]
          · rw [if_neg hin]

theorem mkVocab_value_exists (ts : List String) (hU : "[UNK]" ∉ ts)
    (hM : "[MASK]" ∉ ts) (i : Nat) (hi : i < (mkVocab ts).length) :
    ∃ p ∈ mkVocab ts, p.2 = i := by
  rw [mkVocab_length ts hU hM] at hi
  by_cases hlt : i < ts.length
  · obtain ⟨t, ht⟩ : ∃ t, ts.get? i = some t := by
      rw [List.get?_eq_get hlt]
      exact ⟨ts.get ⟨i, hlt⟩, rfl⟩
    refine ⟨(t, i), ?_, rfl⟩
    rw [mkVocab_eq ts hU hM]
    apply List.mem_append_left
    apply List.mem_map.mpr
    refine ⟨(i, t), ?_, rfl⟩
    have := mem_enumFrom_of_get_eq ts 0 i t ht
    rw [Nat.zero_add] at this
    exact this
  · have hcases : i = ts.length ∨ i = ts.length + 1 := by omega
    rcases hcases with rfl | rfl
    · refine ⟨("[UNK]", ts.length), ?_, rfl⟩
      rw [mkVocab_eq ts hU hM]
      apply List.mem_append_right
      simp
    · refine ⟨("[MASK]", ts.length + 1), ?_, rfl⟩
      rw [mkVocab_eq ts hU hM]
      apply List.mem_append_right
      simp

/-- C9 counterexample: the builder does not leave the caller's entity
records unchanged: after the call the record's FIELD set has absorbed its
TEC set (field_set.update(tec_set) mutates in place). -/
theorem set_entities_weight_mutates_field :
    (MyDataset.set_entities_weight ⟨mkVocab ["cat", "dog"]⟩
        (some [⟨["cat"], ["dog"], []⟩]) 3).2 =
      some [⟨["cat", "dog"], ["dog"], []⟩] ∧
    some [(⟨["cat", "dog"], ["dog"], []⟩ : Entity)] ≠
      some [(⟨["cat"], ["dog"], []⟩ : Entity)] :=
  ⟨rfl, by decide⟩

/-- C9 amended: the weight vector itself is a pure function of (vocabulary,
entities, weight) - length V, the weight at exactly the ids reachable from
the lowercased FIELD-TEC union, 1 everywhere else - but the builder also
mutates each caller record, replacing FIELD by FIELD union TEC (TEC and MISC
stay unchanged). -/
theorem set_entities_weight_amended (ts : List String) (es : List Entity) (w : ℚ)
    (hU : "[UNK]" ∉ ts) (hM : "[MASK]" ∉ ts) :
    (MyDataset.set_entities_weight ⟨mkVocab ts⟩ (some es) w).2 =
      some (es.map (fun e => { e with field := setUpdate e.field e.tec })) ∧
    (MyDataset.set_entities_weight ⟨mkVocab ts⟩ (some es) w).1.length =
      (mkVocab ts).length ∧
    ∀ i, i < (mkVocab ts).length →
      (MyDataset.set_entities_weight ⟨mkVocab ts⟩ (some es) w).1.getD i 0 =
        (if i ∈ entityIds ⟨mkVocab ts⟩ (entityUnion es) then w else 1) := by
  unfold MyDataset.set_entities_weight
  dsimp only
  obtain ⟨hlen, hpt⟩ := weight_fold_spec (entityIds ⟨mkVocab ts⟩ (entityUnion es)) w
    (mkVocab ts) (List.replicate (mkVocab ts).length (1 : ℚ))
  refine ⟨rfl, by rw [hlen, List.length_replicate], ?_⟩
  intro i hi
  have h2 := hpt i (by rw [List.length_replicate]; exact hi)
  rw [h2]
  by_cases hin : i ∈ entityIds ⟨mkVocab ts⟩ (entityUnion es)
  · rw [if_pos hin]
    obtain ⟨p, hp, hpv⟩ := mkVocab_value_exists ts hU hM i hi
    have hany : (mkVocab ts).any
        (fun p => (p.2 == i) && decide (p.2 ∈ entityIds ⟨mkVocab ts⟩ (entityUnion es))) =
        true := by
      rw [List.any_eq_true]
      exact ⟨p, hp, by simp [hpv, hin]⟩
    rw [if_pos hany]
  · rw [if_neg hin]
    have hany : (mkVocab ts).any
        (fun p => (p.2 == i) && decide (p.2 ∈ entityIds ⟨mkVocab ts⟩ (entityUnion es))) =
        false := by
      rw [List.any_eq_false]
      intro p hp
      by_cases hpi : p.2 = i
      · simp [hpi, hin]
      · simp [hpi]
    have hng : ¬(false = true) := by simp
    rw [hany, if_neg hng]
    exact getD_replicate _ _ _ _ hi

/-- Witness for the amended C9 statement on the vocabulary cat, dog with one
entity record. -/
theorem set_entities_weight_amended_witness :
    (MyDataset.set_entities_weight ⟨mkVocab ["cat", "dog"]⟩
        (some [⟨["cat"], ["dog"], []⟩]) 3).2 =
      some (([⟨["cat"], ["dog"], []⟩] :
          List Entity).map (fun e => { e with field := setUpdate e.field e.tec })) ∧
    (MyDataset.set_entities_weight ⟨mkVocab ["cat", "dog"]⟩
        (some [⟨["cat"], ["dog"], []⟩]) 3).1.length = (mkVocab ["cat", "dog"]).length ∧
    ∀ i, i < (mkVocab ["cat", "dog"]).length →
      (MyDataset.set_entities_weight ⟨mkVocab ["cat", "dog"]⟩
          (some [⟨["cat"], ["dog"], []⟩]) 3).1.getD i 0 =
        (if i ∈ entityIds ⟨mkVocab ["cat", "dog"]⟩
            (entityUnion [⟨["cat"], ["dog"], []⟩]) then 3 else 1) :=
  set_entities_weight_amended ["cat", "dog"] [⟨["cat"], ["dog"], []⟩] 3
    (by decide) (by decide)

/-! C4: the sweep's best-score bookkeeping. -/

/-- Component 1 of a hook result, the quantity main actually maximises. -/
def pyAt1 : PyVal → Int
  | PyVal.scalar x => x
  | PyVal.seqv l => l.getD 1 0

/-- The value appended to best_scores for one configuration's run:
max([f[1] for f in scores]) over the per-epoch hook results. -/
def bestOfRun (numEpochs : Nat) (hook : Nat → PyVal) : Int :=
  match (List.range numEpochs).map (fun e => pyAt1 (hook e)) with
  | [] => 0
  | x :: xs => xs.foldl max x

/-- C4 counterexample: a hook that returns a bare scalar score (as the
claim's interface states) makes the sweep fail with a TypeError at the
best-score computation - max([f[1] for f in scores]) subscripts each hook
result - so no best-score entry is appended at all. -/
theorem runSweep_scalar_hook_fails :
    runSweep ["aa bb", "aa bb"] 30000 1 2 (fun _ _ => PyVal.scalar 5) [MaskCfg.single] =
      Except.error "TypeError: object is not subscriptable" :=
  rfl

theorem extractScores_of_seqs (l : List PyVal)
    (h : ∀ v ∈ l, ∃ s, v = PyVal.seqv s ∧ 2 ≤ s.length) :
    extractScores l = Except.ok (l.map pyAt1) := by
  induction l with
  | nil => rfl
  | cons v rest ih =>
    have hv := h v (List.mem_cons_self v rest)
    have hrest := ih (fun u hu => h u (List.mem_cons_of_mem v hu))
    obtain ⟨s, hvs, hs⟩ := hv
    subst hvs
    have hidx : pyIndex (PyVal.seqv s) 1 = Except.ok (s.getD 1 0) := by
      have h1 : 1 < s.length := by omega
      simp only [pyIndex]
      rw [List.get?_eq_get h1, List.getD_eq_getElem?_getD, List.getElem?_eq_getElem h1]
      rfl
    simp only [extractScores, hidx, hrest]
    rfl

theorem runConfig_best (docs : List String) (V g : Int) (E : Nat) (tk : Tokenizer)
    (hook : Nat → PyVal) (htok : tokenizerInit V docs = Except.ok tk) (hg : 1 ≤ g)
    (hE : 1 ≤ E) (hhook : ∀ e, ∃ s, hook e = PyVal.seqv s ∧ 2 ≤ s.length) :
    runConfig docs V g E hook = Except.ok (bestOfRun E hook) := by
  unfold runConfig
  rw [if_neg (by omega), htok]
  dsimp only
  have hex : extractScores ((List.range E).map hook) =
      Except.ok (((List.range E).map hook).map pyAt1) := by
    apply extractScores_of_seqs
    intro v hv
    obtain ⟨e, _, rfl⟩ := List.mem_map.mp hv
    exact hhook e
  rw [hex]
  unfold bestOfRun
  rw [List.map_map]
  cases hr : (List.range E).map (fun e => pyAt1 (hook e)) with
  | nil =>
    exfalso
    have : ((List.range E).map (fun e => pyAt1 (hook e))).length = E := by simp
    rw [hr] at this
    simp at this
    omega
  | cons x xs =>
    have hcomp : (List.range E).map (pyAt1 ∘ hook) =
        (List.range E).map (fun e => pyAt1 (hook e)) := rfl
    rw [hcomp, hr]
    rfl

/-- C4 amended: when every per-epoch hook result is an indexable holding at
least two components, each configuration appends exactly one entry to
best_scores, in sweep order, and that entry is the maximum over the
configuration's epochs of component 1 of the hook result (not of the hook
result itself). -/
theorem runSweep_best_scores (docs : List String) (V g : Int) (E : Nat)
    (tk : Tokenizer) (hook : MaskCfg → Nat → PyVal) (probs : List MaskCfg)
    (htok : tokenizerInit V docs = Except.ok tk) (hg : 1 ≤ g) (hE : 1 ≤ E)
    (hhook : ∀ p e, ∃ s, hook p e = PyVal.seqv s ∧ 2 ≤ s.length) :
    runSweep docs V g E hook probs =
      Except.ok (probs.map (fun p => bestOfRun E (hook p))) := by
  induction probs with
  | nil => rfl
  | cons p ps ih =>
    have hc := runConfig_best docs V g E tk (hook p) htok hg hE (hhook p)
    simp only [runSweep, hc, ih, List.map_cons]

/-- Witness for the amended C4 statement: the sweep single then p = 1, two
epochs, hook returning the pair (0, epoch + 3): best_scores = [4, 4]. -/
theorem runSweep_best_scores_witness :
    runSweep ["aa bb", "aa bb"] 30000 1 2
      (fun _ e => PyVal.seqv [0, (e : Int) + 3]) [MaskCfg.single, MaskCfg.prob 1] =
      Except.ok [4, 4] :=
  runSweep_best_scores ["aa bb", "aa bb"] 30000 1 2
    ⟨mkVocab ["aa", "bb"]⟩ (fun _ e => PyVal.seqv [0, (e : Int) + 3])
    [MaskCfg.single, MaskCfg.prob 1] rfl (by decide) (by decide)
    (fun p e => ⟨[0, (e : Int) + 3], rfl, by simp⟩)

end MD2vec
